import Mathlib

/-!
Shallow embedding of `advent_of_code_hhoppe/__init__.py`.

The module is a harness for Advent-of-Code puzzles: an `Advent` owns `Puzzle`s
(one per day), each `Puzzle` owns two `PuzzlePart`s, and a `PuzzlePart` runs a
bound solver function, reconciles the stringified result against a recorded
answer, and records a best-of-N wall-clock time.

Modelling conventions:
- Wall-clock durations are `Int` values supplied by an environment
  (`ComputeEnv.durations i` is the measured duration of the i-th solver run).
- The solver bound to a part is modelled by `ComputeEnv.runs i`, the outcome of
  the i-th invocation (a returned value, or an exception), plus
  `ComputeEnv.runOutput i`, the stdout/stderr/display writes it performs.
- Python exceptions become an explicit error value (`Err`) paired with the
  mutable state at the moment of the raise, since mutations made before a
  raise persist in Python.
- `unittest.mock.patch` of stdout/stderr/display inside `contextlib.ExitStack`
  becomes a `redirected` flag that is set on entry to the with-block and reset
  on every exit path (normal and exceptional), which is the guarantee the
  context-manager protocol provides.
-/

namespace AoC

/-- Return value of a Python solver: a `str`, an integral number, or any other
object (which `compute` rejects with a type error). -/
inductive RawResult where
  | str (s : String)
  | int (n : Int)
  | other
deriving DecidableEq

/-- Python `str(raw_result)` on values that passed the type check. -/
def strOfRaw : RawResult → String
  | .str s => s
  | .int n => toString n
  | .other => ""

/-- Outcome of one invocation of the bound solver function. -/
inductive RunOutcome where
  | returns (r : RawResult)
  | raises
deriving DecidableEq

/-- Errors raised by the embedded code (Python exceptions). -/
inductive Err where
  | precondition
  | typeMismatch
  | answerMismatch (actual expected : String)
  | solverException
  | minOfEmptyList
  | missingInput
  | namingMismatch (funcDay day : Nat)
deriving DecidableEq

/-- An observable output event: a write performed by the solver while it runs,
the `Obtained result ...` print, or the final `(Part p: t s)` timing print. -/
inductive OutEvent where
  | solverOut (s : String)
  | obtainedPrint (result : String)
  | timingPrint (part : Nat) (t : Int)
deriving DecidableEq

/-- `PuzzlePart` state: day, part index, recorded answer, whether a solver
function is bound (`self.func is not None`), and `elapsed_time` (the Python
sentinel `-0.0` for never-ran is `0` here). -/
structure PuzzlePart where
  day : Nat
  part : Nat
  answer : Option String
  hasFunc : Bool
  elapsed_time : Int
deriving DecidableEq

/-- Environment describing the behaviour of the bound solver and of
`_aocd_submit`: per-run outcome, per-run output writes, per-run measured
duration, and the answer returned by a submission. -/
structure ComputeEnv where
  runs : Nat → RunOutcome
  runOutput : Nat → List String
  durations : Nat → Int
  submit : String → Option String

/-- Mutable state threaded through the `for _ in range(repeat)` loop of
`PuzzlePart.compute`: the part's answer, `elapsed_times`, the number of solver
invocations so far, the visible (non-suppressed) output events, and whether
stdout/stderr/display are currently redirected. -/
structure LoopState where
  answer : Option String
  times : List Int
  calls : Nat
  visible : List OutEvent
  redirected : Bool

/-- One iteration of the loop body of `PuzzlePart.compute` (lines 69-88 of the
source): enter the ExitStack (patching output streams when `silent`), invoke
the solver once, type-check and stringify the result, append the measured
duration, exit the with-block (restoring streams on every path), then perform
answer reconciliation. -/
def runIter (useAocd silent : Bool) (env : ComputeEnv) (i : Nat) (st0 : LoopState) :
    Except (Err × LoopState) LoopState :=
  let st1 : LoopState := { st0 with redirected := silent }
  let st2 : LoopState := { st1 with
    calls := st1.calls + 1
    visible := st1.visible ++ (if silent then [] else (env.runOutput i).map OutEvent.solverOut) }
  match env.runs i with
  | .raises => .error (.solverException, { st2 with redirected := false })
  | .returns .other => .error (.typeMismatch, { st2 with redirected := false })
  | .returns r =>
    let result := strOfRaw r
    let st3 : LoopState := { st2 with
      times := st2.times ++ [env.durations i]
      redirected := false }
    match st3.answer with
    | some a =>
      if result = a then .ok st3
      else .error (.answerMismatch result a, st3)
    | none =>
      let st4 : LoopState := { st3 with visible := st3.visible ++ [.obtainedPrint result] }
      .ok { st4 with answer := if useAocd then env.submit result else some result }

/-- The `for _ in range(repeat)` loop: `n` iterations remaining, `i` the index
of the next solver invocation. An exception aborts the loop and carries the
state at the raise. -/
def computeLoop (useAocd silent : Bool) (env : ComputeEnv) :
    Nat → Nat → LoopState → Except (Err × LoopState) LoopState
  | 0, _, st => .ok st
  | n + 1, i, st =>
    match runIter useAocd silent env i st with
    | .error e => .error e
    | .ok st1 => computeLoop useAocd silent env n (i + 1) st1

/-- Result of a call to `PuzzlePart.compute`: the part state after the call
(mutations made before a raise persist), the raised error if any, the number
of solver invocations, the visible output events, and the stream-redirection
state after the call returns. -/
structure ComputeResult where
  state : PuzzlePart
  err : Option Err
  calls : Nat
  visible : List OutEvent
  redirected : Bool

/-- Python `min` on a nonempty list. -/
def listMin (t : Int) (ts : List Int) : Int := ts.foldl min t

/-- `PuzzlePart.compute(input_, silent=silent, repeat=reps)`.  `assert self.func`
fails when no solver is bound; otherwise the loop runs `reps` iterations, then
`self.elapsed_time = min(elapsed_times)` (raising on an empty list when
`reps = 0`), then the timing print unless `silent`. -/
def compute (p : PuzzlePart) (useAocd : Bool) (env : ComputeEnv) (silent : Bool) (reps : Nat) :
    ComputeResult :=
  if p.hasFunc then
    match computeLoop useAocd silent env reps 0 ⟨p.answer, [], 0, [], false⟩ with
    | .error (e, st) => ⟨{ p with answer := st.answer }, some e, st.calls, st.visible, st.redirected⟩
    | .ok st =>
      match st.times with
      | [] => ⟨{ p with answer := st.answer }, some .minOfEmptyList, st.calls, st.visible,
          st.redirected⟩
      | t :: ts =>
        ⟨{ p with answer := st.answer, elapsed_time := listMin t ts }, none, st.calls,
          st.visible ++ (if silent then [] else [.timingPrint p.part (listMin t ts)]),
          st.redirected⟩
  else ⟨p, some .precondition, 0, [], false⟩

/-- Value of a string of decimal digits, as Python `int` computes it. -/
def digitsToNat (l : List Char) : Nat := l.foldl (fun a c => a * 10 + (c.toNat - 48)) 0

/-- Python `re.match(r'day(\d+)', func_name)` followed by `int(match.group(1))`:
the name must begin with `day` immediately followed by at least one digit; the
parsed day is the value of the maximal digit run. -/
def pyMatchDay (name : String) : Option Nat :=
  match name.data with
  | 'd' :: 'a' :: 'y' :: rest =>
    let digits := rest.takeWhile Char.isDigit
    if digits.isEmpty then none else some (digitsToNat digits)
  | _ => none

/-- Day number parsed from an optional function name, including the falsiness
test `if func_name:` (an absent or empty name parses to nothing). -/
def parsedDayOfName : Option String → Option Nat
  | none => none
  | some name => if name = "" then none else pyMatchDay name

/-- Result of `Puzzle.verify`: the raised error if any, the number of solver
invocations, and the part state after the call (absent when the naming gate
raised before binding the function). -/
structure VerifyResult where
  err : Option Err
  calls : Nat
  partState : Option PuzzlePart
deriving DecidableEq

/-- `Puzzle.verify(part, func, repeat=reps)` (source lines 156-167): parse a day
number from the function's declared name and raise when it differs from the
puzzle's day; otherwise bind the function to the part and call `compute` with
default `silent=False`.  `funcName` is the name of the function after
unwrapping `functools.partial` (`None` when the object has no `__name__`). -/
def verify (day : Nat) (p : PuzzlePart) (funcName : Option String) (useAocd : Bool)
    (env : ComputeEnv) (reps : Nat) : VerifyResult :=
  let gate : Option Err :=
    match funcName with
    | some name =>
      if name = "" then none
      else
        match pyMatchDay name with
        | some d => if d = day then none else some (.namingMismatch d day)
        | none => none
    | none => none
  match gate with
  | some e => ⟨some e, 0, none⟩
  | none =>
    let r := compute { p with hasFunc := true } useAocd env false reps
    ⟨r.err, r.calls, some r.state⟩

/-- The `Advent` configuration fields that `Puzzle.__post_init__` consults:
whether `input_url` / `answer_url` templates are configured (non-empty) and
whether the aocd backend is available. -/
structure AdventCfg where
  hasInputUrl : Bool
  hasAnswerUrl : Bool
  useAocd : Bool
deriving DecidableEq

/-- Environment for the fetch chains of `Puzzle.__post_init__`: the outcome of
reading the formatted `input_url` (`none` models the suppressed
`HTTPError`/`FileNotFoundError`, i.e. NotFound), the backend's `input_data`,
the outcomes of reading each part's formatted `answer_url`, and the backend's
accepted answer per part (`none` when the part is not marked answered). -/
structure FetchEnv where
  readInputUrl : Option String
  aocdInputData : String
  readAnswerUrl1 : Option String
  readAnswerUrl2 : Option String
  aocdAnswer1 : Option String
  aocdAnswer2 : Option String
deriving DecidableEq

/-- The `if not self.input.endswith('\n'): self.input += '\n'` fixup applied to
backend-fetched input. -/
def withTrailingNewline (s : String) : String :=
  if s.data.getLast? = some '\n' then s else s ++ "\n"

/-- Input fetch chain (source lines 105-113): keep a pre-supplied value; else
read the formatted `input_url`, suppressing NotFound; else, when the backend is
available, take its `input_data` with a trailing newline appended if missing. -/
def resolveInput (cfg : AdventCfg) (env : FetchEnv) (pre : String) : String :=
  let s1 := if pre = "" ∧ cfg.hasInputUrl then
      match env.readInputUrl with
      | some v => v
      | none => pre
    else pre
  if s1 = "" ∧ cfg.useAocd then withTrailingNewline env.aocdInputData else s1

/-- Answer fetch chain for one part (source lines 118-129): read the formatted
`answer_url`, suppressing NotFound; when still unset and the backend is
available, take the backend's accepted answer if the part is answered. -/
def resolveAnswer (cfg : AdventCfg) (urlRead aocdAns : Option String) : Option String :=
  let a1 : Option String := if cfg.hasAnswerUrl then urlRead else none
  match a1 with
  | some v => some v
  | none => if cfg.useAocd then aocdAns else none

/-- Puzzle state produced by construction: the resolved input and the two
parts' recorded answers. -/
structure PuzzleState where
  day : Nat
  input : String
  answer1 : Option String
  answer2 : Option String
deriving DecidableEq

/-- `Puzzle.__post_init__` (source lines 103-129): resolve the input through
the fetch chain and fail when it is empty; then create both parts and resolve
each part's answer, leaving it unset when every source fails.  (Registration
into `advent.puzzles` and the interactive summary print are not modelled.) -/
def puzzlePostInit (cfg : AdventCfg) (env : FetchEnv) (day : Nat) (pre : String) :
    Except Err PuzzleState :=
  let inp := resolveInput cfg env pre
  if inp = "" then .error .missingInput
  else .ok ⟨day, inp,
    resolveAnswer cfg env.readAnswerUrl1 env.aocdAnswer1,
    resolveAnswer cfg env.readAnswerUrl2 env.aocdAnswer2⟩

/-- One compute invocation made by `show_times` (which day and part, and the
`silent` and `repeat` arguments it passed). -/
structure ComputeCall where
  day : Nat
  part : Nat
  silent : Bool
  reps : Nat
deriving DecidableEq

/-- What `show_times` prints for one part: the `n/a` marker or a time. -/
inductive Marker where
  | na
  | time (t : Int)
deriving DecidableEq

/-- One day's entry in `Advent.puzzles` as `show_times` sees it: the slots
`puzzle.parts.get(1)` / `puzzle.parts.get(2)` and the solver environments used
if the parts are recomputed. -/
structure DayEntry where
  day : Nat
  part1 : Option PuzzlePart
  part2 : Option PuzzlePart
  env1 : ComputeEnv
  env2 : ComputeEnv

/-- Result of `Advent.show_times`: one line per day with both parts' printed
markers, the printed grand total, and the list of compute invocations made. -/
structure ShowTimesResult where
  lines : List (Nat × Marker × Marker)
  total : Int
  calls : List ComputeCall

/-- The body of `show_times` for one part slot (source lines 210-219): a
missing slot prints `n/a` and is skipped; otherwise, when recomputing and a
solver is bound, `compute(puzzle.input, silent=True, repeat=reps)` runs first;
then the part's `elapsed_time` is printed and added to the total. -/
def processPart (useAocd recompute : Bool) (reps day pidx : Nat)
    (slot : Option PuzzlePart) (env : ComputeEnv) :
    Except Err (Marker × Int × List ComputeCall) :=
  match slot with
  | none => .ok (.na, 0, [])
  | some pp =>
    if recompute && pp.hasFunc then
      let r := compute pp useAocd env true reps
      match r.err with
      | some e => .error e
      | none => .ok (.time r.state.elapsed_time, r.state.elapsed_time, [⟨day, pidx, true, reps⟩])
    else .ok (.time pp.elapsed_time, pp.elapsed_time, [])

/-- `Advent.show_times(recompute=recompute, repeat=reps)` (source lines
203-221) over the day entries in ascending day order; an exception from a
recomputed part propagates out. -/
def showTimes (useAocd : Bool) (entries : List DayEntry) (recompute : Bool) (reps : Nat) :
    Except Err ShowTimesResult :=
  match entries with
  | [] => .ok ⟨[], 0, []⟩
  | e :: rest =>
    match processPart useAocd recompute reps e.day 1 e.part1 e.env1 with
    | .error err => .error err
    | .ok (m1, t1, c1) =>
      match processPart useAocd recompute reps e.day 2 e.part2 e.env2 with
      | .error err => .error err
      | .ok (m2, t2, c2) =>
        match showTimes useAocd rest recompute reps with
        | .error err => .error err
        | .ok r => .ok ⟨(e.day, m1, m2) :: r.lines, t1 + t2 + r.total, c1 ++ c2 ++ r.calls⟩

/-! Helper functions used only in theorem statements and proofs. -/

/-- State carried by a loop outcome (the state at the raise, on the error
side). -/
def stateOf : Except (Err × LoopState) LoopState → LoopState
  | .ok st => st
  | .error (_, st) => st

/-- Error carried by a loop outcome. -/
def errOf : Except (Err × LoopState) LoopState → Option Err
  | .ok _ => none
  | .error (e, _) => some e

/-- The durations of runs `i, i+1, ..., i+n-1`, in order. -/
def timesList (env : ComputeEnv) (i : Nat) : Nat → List Int
  | 0 => []
  | n + 1 => env.durations i :: timesList env (i + 1) n

/-- `true` when no event in the list is a solver write. -/
def noSolverOut (l : List OutEvent) : Bool :=
  l.all (fun e => match e with | .solverOut _ => false | _ => true)

/-- Time contributed by a printed marker (`n/a` contributes nothing). -/
def markerVal : Marker → Int
  | .na => 0
  | .time t => t

/-- Sum of the times reported on the printed per-day lines. -/
def reportedSum (lines : List (Nat × Marker × Marker)) : Int :=
  (lines.map (fun l => markerVal l.2.1 + markerVal l.2.2)).sum

/-- The compute invocations `show_times` is expected to make for one slot. -/
def callsFor (recompute : Bool) (reps day pidx : Nat) : Option PuzzlePart → List ComputeCall
  | none => []
  | some pp => if recompute && pp.hasFunc then [⟨day, pidx, true, reps⟩] else []

/-- The compute invocations `show_times` is expected to make over all days. -/
def expectedCalls (recompute : Bool) (reps : Nat) (entries : List DayEntry) : List ComputeCall :=
  (entries.map (fun e =>
    callsFor recompute reps e.day 1 e.part1 ++ callsFor recompute reps e.day 2 e.part2)).flatten

/-! ### Concrete states and environments used in closed theorems -/

/-- A part with recorded answer `"5"`, a bound solver, never run. -/
def pAns5 : PuzzlePart := ⟨1, 1, some ("5"), true, 0⟩

/-- A part with no recorded answer and a bound solver. -/
def pNoAns : PuzzlePart := ⟨1, 1, none, true, 0⟩

/-- A part with no bound solver (as every part starts out after `Puzzle`
construction), never run. -/
def pNoFunc : PuzzlePart := ⟨1, 1, none, false, 0⟩

/-- A solver that always returns the integer `7`; every run takes 1 time
unit. -/
def envInt7 : ComputeEnv := ⟨fun _ => .returns (.int 7), fun _ => [], fun _ => 1, fun _ => none⟩

/-- A solver that always returns the string `"5"`; every run takes 1 time
unit. -/
def envStr5 : ComputeEnv := ⟨fun _ => .returns (.str ("5")), fun _ => [], fun _ => 1, fun _ => none⟩

/-- A solver that returns `5` on its first run and `6` afterwards. -/
def envFlip : ComputeEnv :=
  ⟨fun i => if i = 0 then .returns (.int 5) else .returns (.int 6), fun _ => [], fun _ => 1,
    fun _ => none⟩

/-- A solver returning `"5"` whose i-th run takes `i + 3` time units (so the
first run is fastest). -/
def envRamp : ComputeEnv :=
  ⟨fun _ => .returns (.str ("5")), fun _ => [], fun i => (i : Int) + 3, fun _ => none⟩

/-- A day entry whose part 1 exists but has no bound solver and whose part 2
slot is absent. -/
def naEntry : DayEntry := ⟨1, some pNoFunc, none, envInt7, envInt7⟩

/-- A day entry whose part 1 has a bound solver and a matching recorded
answer, and whose part 2 slot is absent. -/
def okEntry : DayEntry := ⟨1, some pAns5, none, envStr5, envStr5⟩

/-- Configuration with an input template, no answer template, and the backend
available. -/
def cfgA : AdventCfg := ⟨true, false, true⟩

/-- Fetch environment where the input template read is NotFound and the
backend's stored input is empty. -/
def fenvEmptyAocd : FetchEnv := ⟨none, "", none, none, none, none⟩

/-- Configuration with an input template, an answer template, and the backend
available. -/
def cfgB : AdventCfg := ⟨true, true, true⟩

/-- Fetch environment where the input template read is NotFound, the backend
holds input text, the answer template reads are NotFound, and part 1 is
answered `"7"` on the backend. -/
def fenvAocd7 : FetchEnv := ⟨none, "data", none, none, some ("7"), none⟩

/-- Configuration with an input template only and no backend. -/
def cfgC : AdventCfg := ⟨true, false, false⟩

/-- Configuration with an answer template only and no backend. -/
def cfgD : AdventCfg := ⟨false, true, false⟩

/-- Fetch environment where every read is NotFound and the backend has
nothing. -/
def fenvNotFound : FetchEnv := ⟨none, "x", none, none, none, none⟩

/-! ### Helper lemmas about the compute loop -/

/-- A successful iteration performs one solver call, appends the run's measured
duration, and leaves the streams restored. -/
theorem runIter_ok (u s : Bool) (env : ComputeEnv) (i : Nat) (st st' : LoopState)
    (h : runIter u s env i st = .ok st') :
    st'.calls = st.calls + 1 ∧ st'.times = st.times ++ [env.durations i] ∧
      st'.redirected = false := by
  cases henv : env.runs i with
  | raises => simp [runIter, henv] at h
  | returns r =>
    cases r with
    | other => simp [runIter, henv] at h
    | str s' =>
      cases hans : st.answer with
      | none =>
        simp only [runIter, henv, hans] at h
        cases h
        simp
      | some a =>
        simp only [runIter, henv, hans] at h
        split at h
        · cases h; simp
        · simp at h
    | int m =>
      cases hans : st.answer with
      | none =>
        simp only [runIter, henv, hans] at h
        cases h
        simp
      | some a =>
        simp only [runIter, henv, hans] at h
        split at h
        · cases h; simp
        · simp at h

/-- An iteration never removes a recorded answer: when the state's answer is
already `some a`, both outcomes preserve it, and a raised `answerMismatch`
carries `a` as its expected value. -/
theorem runIter_answer (u s : Bool) (env : ComputeEnv) (i : Nat) (st : LoopState) (a : String)
    (h : st.answer = some a) :
    (stateOf (runIter u s env i st)).answer = some a ∧
      (∀ x y, errOf (runIter u s env i st) = some (Err.answerMismatch x y) → y = a) := by
  cases henv : env.runs i with
  | raises => simp [runIter, henv, stateOf, errOf, h]
  | returns r =>
    cases r with
    | other => simp [runIter, henv, stateOf, errOf, h]
    | str s' =>
      simp only [runIter, henv, h]
      split
      · simp [stateOf, errOf, h]
      · simp [stateOf, errOf, h]
    | int m =>
      simp only [runIter, henv, h]
      split
      · simp [stateOf, errOf, h]
      · simp [stateOf, errOf, h]

/-- The loop never removes a recorded answer, and any `answerMismatch` it
raises carries that answer as its expected value. -/
theorem loop_answer (u s : Bool) (env : ComputeEnv) (a : String) :
    ∀ (n i : Nat) (st : LoopState), st.answer = some a →
      (stateOf (computeLoop u s env n i st)).answer = some a ∧
        (∀ x y, errOf (computeLoop u s env n i st) = some (Err.answerMismatch x y) → y = a) := by
  intro n
  induction n with
  | zero =>
    intro i st h
    exact ⟨h, by intro x y hxy; simp [computeLoop, errOf] at hxy⟩
  | succ k ih =>
    intro i st h
    have hri := runIter_answer u s env i st a h
    cases hrun : runIter u s env i st with
    | error e =>
      obtain ⟨e', st'⟩ := e
      rw [hrun] at hri
      simp only [computeLoop, hrun]
      exact ⟨hri.1, hri.2⟩
    | ok st1 =>
      rw [hrun] at hri
      simp only [computeLoop, hrun]
      exact ih (i + 1) st1 hri.1

/-- A loop that completes performs exactly one call per iteration and appends
exactly the per-run measured durations, in order. -/
theorem loop_ok_shape (u s : Bool) (env : ComputeEnv) :
    ∀ (n i : Nat) (st st' : LoopState), computeLoop u s env n i st = .ok st' →
      st'.calls = st.calls + n ∧ st'.times = st.times ++ timesList env i n := by
  intro n
  induction n with
  | zero =>
    intro i st st' h
    simp only [computeLoop] at h
    cases h
    simp [timesList]
  | succ k ih =>
    intro i st st' h
    simp only [computeLoop] at h
    cases hrun : runIter u s env i st with
    | error e => rw [hrun] at h; simp at h
    | ok st1 =>
      rw [hrun] at h
      have h1 := runIter_ok u s env i st st1 hrun
      have h2 := ih (i + 1) st1 st' h
      refine ⟨?_, ?_⟩
      · omega
      · rw [h2.2, h1.2.1]
        simp [timesList]

/-- Under `silent=True`, one iteration ends with the streams restored and adds
nothing to the visible output beyond a possible `Obtained result` print (which
the source emits outside the suppression scope). -/
theorem runIter_silent (u : Bool) (env : ComputeEnv) (i : Nat) (st : LoopState) :
    (stateOf (runIter u true env i st)).redirected = false ∧
      ((stateOf (runIter u true env i st)).visible = st.visible ∨
        ∃ r, (stateOf (runIter u true env i st)).visible =
          st.visible ++ [OutEvent.obtainedPrint r]) := by
  cases henv : env.runs i with
  | raises => simp [runIter, henv, stateOf]
  | returns r =>
    cases r with
    | other => simp [runIter, henv, stateOf]
    | str s' =>
      cases hans : st.answer with
      | none => simp [runIter, henv, hans, stateOf]
      | some a =>
        simp only [runIter, henv, hans]
        split
        · simp [stateOf]
        · simp [stateOf]
    | int m =>
      cases hans : st.answer with
      | none => simp [runIter, henv, hans, stateOf]
      | some a =>
        simp only [runIter, henv, hans]
        split
        · simp [stateOf]
        · simp [stateOf]

/-- `noSolverOut` is preserved by appending a non-solver event. -/
theorem noSolverOut_append_obtained (l : List OutEvent) (r : String)
    (h : noSolverOut l = true) : noSolverOut (l ++ [OutEvent.obtainedPrint r]) = true := by
  simp only [noSolverOut, List.all_append, Bool.and_eq_true] at h ⊢
  exact ⟨h, by simp⟩

/-- Under `silent=True` the loop keeps the visible output free of solver writes
and ends with the streams restored, on every exit path. -/
theorem loop_silent (u : Bool) (env : ComputeEnv) :
    ∀ (n i : Nat) (st : LoopState), st.redirected = false → noSolverOut st.visible = true →
      (stateOf (computeLoop u true env n i st)).redirected = false ∧
        noSolverOut (stateOf (computeLoop u true env n i st)).visible = true := by
  intro n
  induction n with
  | zero =>
    intro i st hr hv
    exact ⟨hr, hv⟩
  | succ k ih =>
    intro i st hr hv
    have hshape := runIter_silent u env i st
    cases hrun : runIter u true env i st with
    | error e =>
      obtain ⟨e', st'⟩ := e
      rw [hrun] at hshape
      simp only [computeLoop, hrun]
      refine ⟨hshape.1, ?_⟩
      rcases hshape.2 with hsame | ⟨r, hr⟩
      · rw [show (stateOf (Except.error (e', st'))).visible = st.visible from hsame]; exact hv
      · rw [show (stateOf (Except.error (e', st'))).visible =
            st.visible ++ [OutEvent.obtainedPrint r] from hr]
        exact noSolverOut_append_obtained _ _ hv
    | ok st1 =>
      rw [hrun] at hshape
      simp only [computeLoop, hrun]
      refine ih (i + 1) st1 hshape.1 ?_
      rcases hshape.2 with hsame | ⟨r, hrv⟩
      · rw [show st1.visible = st.visible from hsame]; exact hv
      · rw [show st1.visible = st.visible ++ [OutEvent.obtainedPrint r] from hrv]
        exact noSolverOut_append_obtained _ _ hv

/-- Python `min` returns an element of the list. -/
theorem listMin_mem : ∀ (ts : List Int) (t : Int), listMin t ts ∈ t :: ts := by
  intro ts
  induction ts with
  | nil => intro t; simp [listMin]
  | cons x xs ih =>
    intro t
    have h : listMin t (x :: xs) = listMin (min t x) xs := rfl
    rw [h]
    have hm := ih (min t x)
    rcases List.mem_cons.mp hm with he | hmem
    · rcases min_choice t x with hc | hc
      · rw [he, hc]; exact List.mem_cons_self t (x :: xs)
      · rw [he, hc]; exact List.mem_cons_of_mem t (List.mem_cons_self x xs)
    · exact List.mem_cons_of_mem t (List.mem_cons_of_mem x hmem)

/-- Python `min` is a lower bound of the list. -/
theorem listMin_le : ∀ (ts : List Int) (t x : Int), x ∈ t :: ts → listMin t ts ≤ x := by
  intro ts
  induction ts with
  | nil =>
    intro t x hx
    rcases List.mem_cons.mp hx with he | hmem
    · rw [he]; exact le_refl _
    · simp at hmem
  | cons y ys ih =>
    intro t x hx
    have h : listMin t (y :: ys) = listMin (min t y) ys := rfl
    rw [h]
    rcases List.mem_cons.mp hx with he | hmem
    · calc listMin (min t y) ys ≤ min t y := ih (min t y) (min t y) (List.mem_cons_self _ _)
        _ ≤ t := min_le_left t y
        _ = x := he.symm
    · rcases List.mem_cons.mp hmem with he2 | hmem2
      · calc listMin (min t y) ys ≤ min t y := ih (min t y) (min t y) (List.mem_cons_self _ _)
          _ ≤ y := min_le_right t y
          _ = x := he2.symm
      · exact ih (min t y) x (List.mem_cons_of_mem _ hmem2)

/-- Membership in the list of measured durations. -/
theorem mem_timesList (env : ComputeEnv) :
    ∀ (n i : Nat) (x : Int), x ∈ timesList env i n ↔ ∃ k, k < n ∧ x = env.durations (i + k) := by
  intro n
  induction n with
  | zero => intro i x; simp [timesList]
  | succ m ih =>
    intro i x
    simp only [timesList, List.mem_cons, ih (i + 1)]
    constructor
    · rintro (he | ⟨k, hk, he⟩)
      · exact ⟨0, by omega, by simpa using he⟩
      · exact ⟨k + 1, by omega, by rw [he]; congr 1; omega⟩
    · rintro ⟨k, hk, he⟩
      cases k with
      | zero => left; simpa using he
      | succ k' =>
        right
        exact ⟨k', by omega, by rw [he]; congr 1; omega⟩

/-- When an answer `a` is recorded and the solver returns its value on every
run, the loop completes: every reconciliation compares equal. -/
theorem loop_ok_matching (u s : Bool) (env : ComputeEnv) (a : String)
    (hruns : ∀ j, env.runs j = RunOutcome.returns (RawResult.str a)) :
    ∀ (n i : Nat) (st : LoopState), st.answer = some a →
      ∃ st', computeLoop u s env n i st = .ok st' ∧ st'.answer = some a := by
  intro n
  induction n with
  | zero => intro i st h; exact ⟨st, rfl, h⟩
  | succ k ih =>
    intro i st h
    have hstep : runIter u s env i st = .ok { st with
        calls := st.calls + 1
        visible := st.visible ++ (if s then [] else (env.runOutput i).map OutEvent.solverOut)
        times := st.times ++ [env.durations i]
        redirected := false } := by
      simp [runIter, hruns i, h, strOfRaw]
    obtain ⟨st', hst', ha'⟩ := ih (i + 1)
      { st with
        calls := st.calls + 1
        visible := st.visible ++ (if s then [] else (env.runOutput i).map OutEvent.solverOut)
        times := st.times ++ [env.durations i]
        redirected := false }
      (by simpa using h)
    refine ⟨st', ?_, ha'⟩
    simp only [computeLoop, hstep]
    exact hst'

/-- A `compute` call that raises any exception leaves `elapsed_time` unchanged:
the assignment `self.elapsed_time = min(elapsed_times)` is only reached when no
run raised. -/
theorem compute_err_elapsed (p : PuzzlePart) (u : Bool) (env : ComputeEnv) (s : Bool) (n : Nat)
    (e : Err) (h : (compute p u env s n).err = some e) :
    (compute p u env s n).state.elapsed_time = p.elapsed_time := by
  cases hf : p.hasFunc with
  | false => simp [compute, hf]
  | true =>
    cases hloop : computeLoop u s env n 0 ⟨p.answer, [], 0, [], false⟩ with
    | error epair =>
      obtain ⟨e', st⟩ := epair
      simp [compute, hf, hloop]
    | ok st =>
      cases hts : st.times with
      | nil => simp [compute, hf, hloop, hts]
      | cons t ts => simp [compute, hf, hloop, hts] at h

/-- A `compute` call on a part with a recorded answer never changes that
answer, and any `answerMismatch` it raises carries the recorded answer as its
expected value. -/
theorem compute_answer_frozen (p : PuzzlePart) (u : Bool) (env : ComputeEnv) (s : Bool) (n : Nat)
    (a : String) (ha : p.answer = some a) :
    (compute p u env s n).state.answer = some a ∧
      (∀ x y, (compute p u env s n).err = some (Err.answerMismatch x y) → y = a) := by
  cases hf : p.hasFunc with
  | false => simp [compute, hf, ha]
  | true =>
    have hinv := loop_answer u s env a n 0 ⟨p.answer, [], 0, [], false⟩ (by simpa using ha)
    cases hloop : computeLoop u s env n 0 ⟨p.answer, [], 0, [], false⟩ with
    | error epair =>
      obtain ⟨e', st⟩ := epair
      rw [hloop] at hinv
      refine ⟨by simpa [compute, hf, hloop, stateOf] using hinv.1, ?_⟩
      intro x y hxy
      apply hinv.2 x y
      simp only [compute, hf, if_true, hloop] at hxy
      simpa [errOf] using hxy
    | ok st =>
      rw [hloop] at hinv
      cases hts : st.times with
      | nil =>
        refine ⟨by simpa [compute, hf, hloop, hts, stateOf] using hinv.1, ?_⟩
        intro x y hxy
        simp [compute, hf, hloop, hts] at hxy
      | cons t ts =>
        refine ⟨by simpa [compute, hf, hloop, hts, stateOf] using hinv.1, ?_⟩
        intro x y hxy
        simp [compute, hf, hloop, hts] at hxy

/-- A `compute` call on a part whose recorded answer matches every run's result
completes without error and leaves the answer and the bound function intact. -/
theorem compute_ok_matching (p : PuzzlePart) (u : Bool) (env : ComputeEnv) (s : Bool) (n : Nat)
    (a : String) (hf : p.hasFunc = true) (ha : p.answer = some a)
    (hruns : ∀ j, env.runs j = RunOutcome.returns (RawResult.str a)) (hn : 1 ≤ n) :
    (compute p u env s n).err = none ∧ (compute p u env s n).state.answer = some a ∧
      (compute p u env s n).state.hasFunc = true := by
  obtain ⟨st', hst', ha'⟩ :=
    loop_ok_matching u s env a hruns n 0 ⟨p.answer, [], 0, [], false⟩ (by simpa using ha)
  have hshape := loop_ok_shape u s env n 0 _ st' hst'
  cases hts : st'.times with
  | nil =>
    exfalso
    rw [hts] at hshape
    obtain ⟨k, rfl⟩ : ∃ k, n = k + 1 := ⟨n - 1, by omega⟩
    simp [timesList] at hshape
  | cons t ts =>
    simp [compute, hf, hst', hts, ha']

/-! ### Claim theorems -/

/-- Claim C4: a `compute(input, repeat=N)` call that completes without error
invokes the solver exactly `N` times, each run's duration is measured
individually (`env.durations i` for run `i`), and the recorded `elapsed_time`
is the minimum of those `N` measured durations. -/
theorem c4_best_of_n_timing (p : PuzzlePart) (u : Bool) (env : ComputeEnv) (silent : Bool)
    (n : Nat) (hf : p.hasFunc = true) (hok : (compute p u env silent n).err = none) :
    (compute p u env silent n).calls = n ∧
      IsLeast {q : Int | ∃ i, i < n ∧ q = env.durations i}
        (compute p u env silent n).state.elapsed_time := by
  cases hloop : computeLoop u silent env n 0 ⟨p.answer, [], 0, [], false⟩ with
  | error epair =>
    obtain ⟨e', st⟩ := epair
    simp [compute, hf, hloop] at hok
  | ok st =>
    have hshape := loop_ok_shape u silent env n 0 _ st hloop
    cases hts : st.times with
    | nil => simp [compute, hf, hloop, hts] at hok
    | cons t ts =>
      have h1 : st.calls = n := by simpa using hshape.1
      have htimes : t :: ts = timesList env 0 n := by
        rw [← hts]
        simpa using hshape.2
      refine ⟨?_, ?_, ?_⟩
      · have hc : (compute p u env silent n).calls = st.calls := by
          simp [compute, hf, hloop, hts]
        rw [hc]
        omega
      · have helap : (compute p u env silent n).state.elapsed_time = listMin t ts := by
          simp [compute, hf, hloop, hts]
        rw [helap]
        have hmem : listMin t ts ∈ timesList env 0 n := htimes ▸ listMin_mem ts t
        obtain ⟨k, hk, he⟩ := (mem_timesList env n 0 _).mp hmem
        exact ⟨k, hk, by simpa using he⟩
      · intro b hb
        obtain ⟨i, hi, hbe⟩ := hb
        have helap : (compute p u env silent n).state.elapsed_time = listMin t ts := by
          simp [compute, hf, hloop, hts]
        rw [helap]
        have hbmem : b ∈ t :: ts := by
          rw [htimes]
          exact (mem_timesList env n 0 b).mpr ⟨i, hi, by simpa using hbe⟩
        exact listMin_le ts t b hbmem

/-- Witness for C4 at a concrete part and solver: two runs taking 3 and 4 time
units; the recorded time is the least element of the set of run durations. -/
theorem c4_witness :
    (compute pAns5 false envRamp false 2).calls = 2 ∧
      IsLeast {q : Int | ∃ i, i < 2 ∧ q = envRamp.durations i}
        (compute pAns5 false envRamp false 2).state.elapsed_time :=
  c4_best_of_n_timing pAns5 false envRamp false 2 rfl rfl

/-- Claim C10: with a bound solver, `compute(input, repeat=0)` always fails
(`min` of the empty list of timings raises) and the solver is never invoked,
so `compute` has the unstated precondition `repeat >= 1`. -/
theorem c10_repeat_zero (p : PuzzlePart) (u : Bool) (env : ComputeEnv) (silent : Bool)
    (hf : p.hasFunc = true) :
    (compute p u env silent 0).err = some Err.minOfEmptyList ∧
      (compute p u env silent 0).calls = 0 := by
  simp [compute, hf, computeLoop]

/-- Witness for C10 at a concrete part and solver. -/
theorem c10_witness :
    (compute pAns5 false envStr5 false 0).err = some Err.minOfEmptyList ∧
      (compute pAns5 false envStr5 false 0).calls = 0 :=
  c10_repeat_zero pAns5 false envStr5 false rfl

/-- Claim C8: under `silent=True` no solver write to stdout/stderr or to the
interactive display is visible, and the output streams are restored after the
call on every exit path — including environments whose solver raises, since
the statement quantifies over all solver behaviours. -/
theorem c8_silent_isolation (p : PuzzlePart) (u : Bool) (env : ComputeEnv) (n : Nat) :
    (compute p u env true n).redirected = false ∧
      noSolverOut (compute p u env true n).visible = true := by
  cases hf : p.hasFunc with
  | false => simp [compute, hf, noSolverOut]
  | true =>
    have hl := loop_silent u env n 0 ⟨p.answer, [], 0, [], false⟩ rfl (by simp [noSolverOut])
    cases hloop : computeLoop u true env n 0 ⟨p.answer, [], 0, [], false⟩ with
    | error epair =>
      obtain ⟨e', st⟩ := epair
      rw [hloop] at hl
      exact ⟨by simpa [compute, hf, hloop, stateOf] using hl.1,
        by simpa [compute, hf, hloop, stateOf] using hl.2⟩
    | ok st =>
      rw [hloop] at hl
      cases hts : st.times with
      | nil =>
        exact ⟨by simpa [compute, hf, hloop, hts, stateOf] using hl.1,
          by simpa [compute, hf, hloop, hts, stateOf] using hl.2⟩
      | cons t ts =>
        refine ⟨by simpa [compute, hf, hloop, hts, stateOf] using hl.1, ?_⟩
        have hv : (compute p u env true n).visible = st.visible := by
          simp [compute, hf, hloop, hts]
        rw [hv]
        simpa [stateOf] using hl.2

/-- Claim C6: when the first run's stringified result differs from an
already-recorded answer, `compute` raises `answerMismatch` carrying the actual
and the expected value, the recorded answer is unchanged by the failed call,
and — for any repeat count — every `answerMismatch` this part can raise
carries the recorded answer, which is never mutated. -/
theorem c6_mismatch_carries_both (p : PuzzlePart) (u : Bool) (env : ComputeEnv) (silent : Bool)
    (n : Nat) (a : String) (r : RawResult) (hf : p.hasFunc = true) (ha : p.answer = some a)
    (h0 : env.runs 0 = RunOutcome.returns r) (hr : r ≠ RawResult.other)
    (hne : strOfRaw r ≠ a) (hn : 1 ≤ n) :
    ((compute p u env silent n).err = some (Err.answerMismatch (strOfRaw r) a) ∧
        (compute p u env silent n).state.answer = some a) ∧
      (∀ m x y, (compute p u env silent m).err = some (Err.answerMismatch x y) →
        y = a ∧ (compute p u env silent m).state.answer = some a) := by
  obtain ⟨k, rfl⟩ : ∃ k, n = k + 1 := ⟨n - 1, by omega⟩
  refine ⟨⟨?_, (compute_answer_frozen p u env silent (k + 1) a ha).1⟩, ?_⟩
  · cases r with
    | other => exact absurd rfl hr
    | str s' =>
      simp only [strOfRaw] at hne ⊢
      simp [compute, hf, computeLoop, runIter, h0, ha, hne, strOfRaw]
    | int m =>
      simp only [strOfRaw] at hne ⊢
      simp [compute, hf, computeLoop, runIter, h0, ha, hne, strOfRaw]
  · intro m x y hxy
    have hfr := compute_answer_frozen p u env silent m a ha
    exact ⟨hfr.2 x y hxy, hfr.1⟩

/-- Witness for C6: recorded answer `"5"`, solver returns `7`; the call fails
with a mismatch carrying `"7"` and `"5"` and the answer stays `"5"`. -/
theorem c6_witness :
    ((compute pAns5 false envInt7 false 1).err =
        some (Err.answerMismatch (strOfRaw (RawResult.int 7)) ("5")) ∧
      (compute pAns5 false envInt7 false 1).state.answer = some ("5")) ∧
      (∀ m x y, (compute pAns5 false envInt7 false m).err = some (Err.answerMismatch x y) →
        y = "5" ∧ (compute pAns5 false envInt7 false m).state.answer = some ("5")) :=
  c6_mismatch_carries_both pAns5 false envInt7 false 1 ("5") (RawResult.int 7) rfl rfl rfl
    (by decide) (by decide) (by decide)

/-- Claim C9: `compute` is idempotent with respect to a matching recorded
answer: with an answer recorded and a solver that returns it on every run,
two consecutive calls both succeed and the answer is unchanged. -/
theorem c9_idempotent_matching (p : PuzzlePart) (u : Bool) (env : ComputeEnv) (silent : Bool)
    (n : Nat) (a : String) (hf : p.hasFunc = true) (ha : p.answer = some a)
    (hruns : ∀ j, env.runs j = RunOutcome.returns (RawResult.str a)) (hn : 1 ≤ n) :
    ((compute p u env silent n).err = none ∧
        (compute p u env silent n).state.answer = some a) ∧
      ((compute (compute p u env silent n).state u env silent n).err = none ∧
        (compute (compute p u env silent n).state u env silent n).state.answer = some a) := by
  have h1 := compute_ok_matching p u env silent n a hf ha hruns hn
  have h2 := compute_ok_matching (compute p u env silent n).state u env silent n a
    h1.2.2 h1.2.1 hruns hn
  exact ⟨⟨h1.1, h1.2.1⟩, h2.1, h2.2.1⟩

/-- Witness for C9 at a concrete part and solver. -/
theorem c9_witness :
    ((compute pAns5 false envStr5 false 1).err = none ∧
        (compute pAns5 false envStr5 false 1).state.answer = some ("5")) ∧
      ((compute (compute pAns5 false envStr5 false 1).state false envStr5 false 1).err = none ∧
        (compute (compute pAns5 false envStr5 false 1).state false envStr5 false
            1).state.answer = some ("5")) :=
  c9_idempotent_matching pAns5 false envStr5 false 1 ("5") rfl rfl (fun _ => rfl) (by decide)

/-- Counterexample to claim C1 as stated: recorded answer `"5"`, solver
returns `7` taking 1 time unit; the call raises the answer mismatch, yet
`elapsed_time` still holds the never-ran sentinel `0`, not the measured
duration `1` — the assignment to `elapsed_time` sits after the raise. -/
theorem c1_counterexample :
    (compute pAns5 false envInt7 false 1).err = some (Err.answerMismatch ("7") ("5")) ∧
      (compute pAns5 false envInt7 false 1).state.elapsed_time = 0 ∧
      envInt7.durations 0 = 1 ∧ (0 : Int) ≠ 1 :=
  ⟨rfl, rfl, rfl, by decide⟩

/-- Claim C1 (amended): after an `answerMismatch` failure, `elapsed_time` is
NOT updated — it keeps the value it had before the call. -/
theorem c1_elapsed_unchanged (p : PuzzlePart) (u : Bool) (env : ComputeEnv) (silent : Bool)
    (n : Nat) (x y : String)
    (h : (compute p u env silent n).err = some (Err.answerMismatch x y)) :
    (compute p u env silent n).state.elapsed_time = p.elapsed_time :=
  compute_err_elapsed p u env silent n (Err.answerMismatch x y) h

/-- Witness for the amended C1 at a concrete failing call. -/
theorem c1_witness :
    (compute pAns5 false envInt7 false 1).state.elapsed_time = pAns5.elapsed_time :=
  c1_elapsed_unchanged pAns5 false envInt7 false 1 ("7") ("5") rfl

/-- Counterexample to claim C2 as stated: with no recorded answer, no backend,
and a solver returning `5` then `6`, `compute(repeat=2)` raises an
`answerMismatch` on the second run — so reconciliation did run again on run 2,
comparing against the answer recorded by run 1; under the claim the call
would have completed with no comparison on run 2. -/
theorem c2_counterexample :
    (compute pNoAns false envFlip false 2).err = some (Err.answerMismatch ("6") ("5")) ∧
      (compute pNoAns false envFlip false 2).state.answer = some ("5") :=
  ⟨rfl, rfl⟩

/-- Claim C2 (amended): answer reconciliation runs after every one of the `N`
runs, not once: a run with no recorded answer records its result, and each
later run of the same call is compared against it, raising `answerMismatch`
when it differs. -/
theorem c2_reconciliation_each_run (p : PuzzlePart) (env : ComputeEnv) (silent : Bool)
    (n : Nat) (r0 r1 : RawResult) (hf : p.hasFunc = true) (ha : p.answer = none)
    (h0 : env.runs 0 = RunOutcome.returns r0) (h1 : env.runs 1 = RunOutcome.returns r1)
    (hr0 : r0 ≠ RawResult.other) (hr1 : r1 ≠ RawResult.other)
    (hne : strOfRaw r1 ≠ strOfRaw r0) (hn : 2 ≤ n) :
    (compute p false env silent n).err =
      some (Err.answerMismatch (strOfRaw r1) (strOfRaw r0)) := by
  obtain ⟨k, rfl⟩ : ∃ k, n = k + 2 := ⟨n - 2, by omega⟩
  cases r0 with
  | other => exact absurd rfl hr0
  | str s0 =>
    cases r1 with
    | other => exact absurd rfl hr1
    | str s1 =>
      simp only [strOfRaw] at hne ⊢
      simp [compute, hf, computeLoop, runIter, h0, h1, ha, hne, strOfRaw]
    | int m1 =>
      simp only [strOfRaw] at hne ⊢
      simp [compute, hf, computeLoop, runIter, h0, h1, ha, hne, strOfRaw]
  | int m0 =>
    cases r1 with
    | other => exact absurd rfl hr1
    | str s1 =>
      simp only [strOfRaw] at hne ⊢
      simp [compute, hf, computeLoop, runIter, h0, h1, ha, hne, strOfRaw]
    | int m1 =>
      simp only [strOfRaw] at hne ⊢
      simp [compute, hf, computeLoop, runIter, h0, h1, ha, hne, strOfRaw]

/-- Witness for the amended C2: solver returns `5` then `6`; the second run's
reconciliation raises. -/
theorem c2_witness :
    (compute pNoAns false envFlip false 2).err =
      some (Err.answerMismatch (strOfRaw (RawResult.int 6)) (strOfRaw (RawResult.int 5))) :=
  c2_reconciliation_each_run pNoAns envFlip false 2 (RawResult.int 5) (RawResult.int 6) rfl rfl
    rfl rfl (by decide) (by decide) (by decide) (by decide)

/-- Claim C7: when the function's declared name parses to a day number
different from the puzzle's day, `verify` raises `namingMismatch` with zero
solver calls and no function bound; when the name is absent or no day number
parses from it, `verify` proceeds straight to binding the function and
running `compute`. -/
theorem c7_naming_gate (day : Nat) (p : PuzzlePart) (fn : Option String) (u : Bool)
    (env : ComputeEnv) (n : Nat) :
    (∀ d, parsedDayOfName fn = some d → d ≠ day →
        verify day p fn u env n = ⟨some (Err.namingMismatch d day), 0, none⟩)
    ∧ (parsedDayOfName fn = none →
        verify day p fn u env n =
          ⟨(compute { p with hasFunc := true } u env false n).err,
            (compute { p with hasFunc := true } u env false n).calls,
            some (compute { p with hasFunc := true } u env false n).state⟩) := by
  constructor
  · intro d hd hne
    cases fn with
    | none => simp [parsedDayOfName] at hd
    | some name =>
      by_cases hname : name = ""
      · simp [parsedDayOfName, hname] at hd
      · simp only [parsedDayOfName] at hd
        rw [if_neg hname] at hd
        simp [verify, hname, hd, hne]
  · intro hn0
    cases fn with
    | none => simp [verify]
    | some name =>
      by_cases hname : name = ""
      · simp [verify, hname]
      · simp only [parsedDayOfName] at hn0
        rw [if_neg hname] at hn0
        simp [verify, hname, hn0]

/-- Witness for C7: a solver named `day3` against day 5 is rejected with zero
calls; an anonymous solver proceeds to `compute`. -/
theorem c7_witness :
    verify 5 pNoAns (some ("day3")) false envInt7 1 =
        ⟨some (Err.namingMismatch 3 5), 0, none⟩ ∧
      verify 5 pNoAns none false envInt7 1 =
        ⟨(compute { pNoAns with hasFunc := true } false envInt7 false 1).err,
          (compute { pNoAns with hasFunc := true } false envInt7 false 1).calls,
          some (compute { pNoAns with hasFunc := true } false envInt7 false 1).state⟩ :=
  ⟨(c7_naming_gate 5 pNoAns (some ("day3")) false envInt7 1).1 3 rfl (by decide),
    (c7_naming_gate 5 pNoAns none false envInt7 1).2 rfl⟩

/-- Counterexample to claim C5 as stated: with an input template whose read is
NotFound and a backend whose stored input is empty, every input candidate
fails or yields an empty value, yet construction succeeds with input `"\n"`
(the trailing-newline fixup makes the empty backend value non-empty) instead
of failing with `missingInput`. -/
theorem c5_counterexample :
    puzzlePostInit cfgA fenvEmptyAocd 1 ("") = .ok ⟨1, "\n", none, none⟩ ∧
      puzzlePostInit cfgA fenvEmptyAocd 1 ("") ≠ .error Err.missingInput := by
  constructor
  · rfl
  · intro h
    rw [show puzzlePostInit cfgA fenvEmptyAocd 1 ("") = .ok ⟨1, "\n", none, none⟩ from rfl] at h
    exact Except.noConfusion h

/-- Claim C5 (amended): (input chain) a NotFound at the template read falls
through to the backend; (missing input) when the backend is unavailable and
the earlier candidates fail or yield empty, construction fails with
`missingInput` — when the backend is available its value is always accepted
after the trailing-newline fixup, even when empty; (answer chain) a NotFound
at the answer template read falls through to the backend; (answers unset)
when every answer candidate fails the answer is left unset, and construction
can only ever fail with `missingInput`, never because of answers. -/
theorem c5_fetch_chains (cfg : AdventCfg) (env : FetchEnv) (day : Nat) (pre : String) :
    (pre = "" → cfg.hasInputUrl = true → env.readInputUrl = none → cfg.useAocd = true →
        resolveInput cfg env pre = withTrailingNewline env.aocdInputData)
    ∧ (pre = "" → cfg.useAocd = false →
        (cfg.hasInputUrl = false ∨ env.readInputUrl = none ∨ env.readInputUrl = some "") →
        puzzlePostInit cfg env day pre = .error Err.missingInput)
    ∧ (cfg.hasAnswerUrl = true → env.readAnswerUrl1 = none → cfg.useAocd = true →
        resolveAnswer cfg env.readAnswerUrl1 env.aocdAnswer1 = env.aocdAnswer1)
    ∧ (env.readAnswerUrl1 = none → env.aocdAnswer1 = none →
        ∀ ps, puzzlePostInit cfg env day pre = .ok ps → ps.answer1 = none)
    ∧ (∀ e, puzzlePostInit cfg env day pre = .error e → e = Err.missingInput) := by
  refine ⟨?_, ?_, ?_, ?_, ?_⟩
  · intro h1 h2 h3 h4
    simp [resolveInput, h1, h2, h3, h4]
  · intro h1 h2 h3
    rcases h3 with h3 | h3 | h3 <;> simp [puzzlePostInit, resolveInput, h1, h2, h3]
  · intro h1 h2 h3
    simp [resolveAnswer, h1, h2, h3]
  · intro h1 h2 ps hps
    by_cases hinp : resolveInput cfg env pre = ""
    · simp [puzzlePostInit, hinp] at hps
    · simp only [puzzlePostInit, if_neg hinp] at hps
      injection hps with hps'
      rw [← hps']
      simp [resolveAnswer, h1, h2]
  · intro e he
    by_cases hinp : resolveInput cfg env pre = ""
    · simp only [puzzlePostInit, if_pos hinp] at he
      exact (Except.error.inj he).symm
    · simp only [puzzlePostInit, if_neg hinp] at he
      exact Except.noConfusion he

/-- Witness for the amended C5, discharging each conjunct at concrete
configurations: chain fallthrough for input and answers, `missingInput` when
the backend is off, and answers left unset without failing construction. -/
theorem c5_witness :
    resolveInput cfgB fenvAocd7 ("") = withTrailingNewline fenvAocd7.aocdInputData ∧
      puzzlePostInit cfgC fenvEmptyAocd 1 ("") = .error Err.missingInput ∧
      resolveAnswer cfgB fenvAocd7.readAnswerUrl1 fenvAocd7.aocdAnswer1 =
        fenvAocd7.aocdAnswer1 ∧
      (puzzlePostInit cfgD fenvNotFound 1 ("hello") = .ok ⟨1, "hello", none, none⟩ →
        PuzzleState.answer1 ⟨1, "hello", none, none⟩ = none) ∧
      (puzzlePostInit cfgC fenvEmptyAocd 1 ("") = .error Err.missingInput →
        Err.missingInput = Err.missingInput) :=
  ⟨(c5_fetch_chains cfgB fenvAocd7 1 ("")).1 rfl rfl rfl rfl,
    (c5_fetch_chains cfgC fenvEmptyAocd 1 ("")).2.1 rfl rfl (Or.inr (Or.inl rfl)),
    (c5_fetch_chains cfgB fenvAocd7 1 ("")).2.2.1 rfl rfl rfl,
    fun h => (c5_fetch_chains cfgD fenvNotFound 1 ("hello")).2.2.2.1 rfl rfl _ h,
    fun h => (c5_fetch_chains cfgC fenvEmptyAocd 1 ("")).2.2.2.2 _ h⟩

/-- What one `show_times` part slot reports: the printed time matches the value
added to the total, compute is invoked exactly when recomputing a part with a
bound function, and the `n/a` marker appears exactly when the slot is absent
from the parts mapping. -/
theorem processPart_spec (u rc : Bool) (reps day pidx : Nat) (slot : Option PuzzlePart)
    (env : ComputeEnv) (m : Marker) (t : Int) (c : List ComputeCall)
    (h : processPart u rc reps day pidx slot env = .ok (m, t, c)) :
    t = markerVal m ∧ c = callsFor rc reps day pidx slot ∧ (m = Marker.na ↔ slot = none) := by
  cases slot with
  | none =>
    simp only [processPart] at h
    obtain ⟨rfl, rfl, rfl⟩ : Marker.na = m ∧ (0 : Int) = t ∧ ([] : List ComputeCall) = c := by
      simpa using h
    simp [markerVal, callsFor]
  | some pp =>
    simp only [processPart] at h
    by_cases hrc : rc && pp.hasFunc
    · rw [if_pos hrc] at h
      cases herr : (compute pp u env true reps).err with
      | some e => rw [herr] at h; simp at h
      | none =>
        rw [herr] at h
        obtain ⟨rfl, rfl, rfl⟩ :
            Marker.time (compute pp u env true reps).state.elapsed_time = m ∧
              (compute pp u env true reps).state.elapsed_time = t ∧
              [(⟨day, pidx, true, reps⟩ : ComputeCall)] = c := by
          simpa using h
        refine ⟨rfl, by simp [callsFor, hrc], by simp⟩
    · rw [if_neg hrc] at h
      obtain ⟨rfl, rfl, rfl⟩ : Marker.time pp.elapsed_time = m ∧ pp.elapsed_time = t ∧
          ([] : List ComputeCall) = c := by
        simpa using h
      refine ⟨rfl, by simp [callsFor, hrc], by simp⟩

/-- Claim C3 (amended): a successful `show_times(recompute=True, repeat=k)`
invokes `compute` silently with repeat `k` exactly for the parts present in
the mapping that have a bound function; the `n/a` marker appears exactly for
part slots absent from the mapping (a present part without a bound function
reports its stored `elapsed_time`, the never-ran sentinel); and the printed
grand total equals the sum of the reported per-part times. -/
theorem c3_show_times (u : Bool) (k : Nat) :
    ∀ (entries : List DayEntry) (r : ShowTimesResult),
      showTimes u entries true k = .ok r →
      r.total = reportedSum r.lines ∧ r.calls = expectedCalls true k entries ∧
        List.Forall₂ (fun (l : Nat × Marker × Marker) (e : DayEntry) =>
          l.1 = e.day ∧ (l.2.1 = Marker.na ↔ e.part1 = none) ∧
            (l.2.2 = Marker.na ↔ e.part2 = none)) r.lines entries := by
  intro entries
  induction entries with
  | nil =>
    intro r h
    simp only [showTimes] at h
    obtain rfl : (⟨[], 0, []⟩ : ShowTimesResult) = r := by simpa using h
    exact ⟨by simp [reportedSum], by simp [expectedCalls], List.Forall₂.nil⟩
  | cons e rest ih =>
    intro r h
    simp only [showTimes] at h
    cases hp1 : processPart u true k e.day 1 e.part1 e.env1 with
    | error e1 => rw [hp1] at h; simp at h
    | ok trip1 =>
      obtain ⟨m1, t1, c1⟩ := trip1
      rw [hp1] at h
      cases hp2 : processPart u true k e.day 2 e.part2 e.env2 with
      | error e2 => rw [hp2] at h; simp at h
      | ok trip2 =>
        obtain ⟨m2, t2, c2⟩ := trip2
        rw [hp2] at h
        cases hrest : showTimes u rest true k with
        | error e3 => rw [hrest] at h; simp at h
        | ok rr =>
          rw [hrest] at h
          obtain rfl : (⟨(e.day, m1, m2) :: rr.lines, t1 + t2 + rr.total,
              c1 ++ c2 ++ rr.calls⟩ : ShowTimesResult) = r := by simpa using h
          have s1 := processPart_spec u true k e.day 1 e.part1 e.env1 m1 t1 c1 hp1
          have s2 := processPart_spec u true k e.day 2 e.part2 e.env2 m2 t2 c2 hp2
          have hr := ih rr hrest
          refine ⟨?_, ?_, ?_⟩
          · show t1 + t2 + rr.total = reportedSum ((e.day, m1, m2) :: rr.lines)
            rw [s1.1, s2.1, hr.1]
            simp [reportedSum]
          · show c1 ++ c2 ++ rr.calls = expectedCalls true k (e :: rest)
            rw [s1.2.1, s2.2.1, hr.2.1]
            simp [expectedCalls, List.append_assoc]
          · exact List.Forall₂.cons ⟨rfl, s1.2.2, s2.2.2⟩ hr.2.2

/-- Counterexample to claim C3 as stated: a day whose part 1 is present but
has no bound solver and whose part 2 slot is absent. `show_times` prints the
time marker `0` (the sentinel) for part 1 — not the `n/a` marker the claim
requires for every part without a bound solver; `n/a` appears only for the
absent part 2 slot. -/
theorem c3_counterexample :
    showTimes false [naEntry] true 2 =
        .ok ⟨[(1, Marker.time 0, Marker.na)], 0, []⟩ ∧
      naEntry.part1 = some pNoFunc ∧ pNoFunc.hasFunc = false ∧
      Marker.time 0 ≠ Marker.na :=
  ⟨rfl, rfl, rfl, by decide⟩

/-- Witness for the amended C3 at a concrete entry list: one day whose part 1
has a bound solver with a matching answer and whose part 2 slot is absent. -/
theorem c3_witness :
    (⟨[(1, Marker.time 1, Marker.na)], 1, [⟨1, 1, true, 2⟩]⟩ : ShowTimesResult).total =
        reportedSum [(1, Marker.time 1, Marker.na)] ∧
      (⟨[(1, Marker.time 1, Marker.na)], 1, [⟨1, 1, true, 2⟩]⟩ : ShowTimesResult).calls =
        expectedCalls true 2 [okEntry] ∧
      List.Forall₂ (fun (l : Nat × Marker × Marker) (e : DayEntry) =>
          l.1 = e.day ∧ (l.2.1 = Marker.na ↔ e.part1 = none) ∧
            (l.2.2 = Marker.na ↔ e.part2 = none))
        [(1, Marker.time 1, Marker.na)] [okEntry] :=
  c3_show_times false 2 [okEntry] ⟨[(1, Marker.time 1, Marker.na)], 1, [⟨1, 1, true, 2⟩]⟩ rfl

end AoC
